import Mathlib

/-!
Verification of the crm_frontend chat E2EE and reconciliation logic.

The client code (ChatModal.tsx in two variants, UserManagement.tsx) is
shallowly embedded here.  Browser built-ins used by the code (btoa/atob,
TextEncoder/TextDecoder, WebCrypto HKDF / PBKDF2 / AES-GCM) are modelled:
base64 and UTF-8 are implemented for real as the algorithms the platform
specifies; the cryptographic primitives are idealized as deterministic
authenticated encryption over byte lists.
-/

namespace CrmFrontend

-- Bytes are modelled as Nat; well-formed byte lists have entries below 256.

/-! ## Base64 (model of btoa / atob) -/

/-- The base64 alphabet: index 0..63 to character. -/
def b64CharOfIndex (i : Nat) : Char :=
  if i < 26 then Char.ofNat (65 + i)
  else if i < 52 then Char.ofNat (97 + (i - 26))
  else if i < 62 then Char.ofNat (48 + (i - 52))
  else if i = 62 then '+' else '/'

/-- Inverse of the base64 alphabet; none for characters outside it. -/
def b64IndexOfChar (c : Char) : Option Nat :=
  let n := c.toNat
  if 65 ≤ n ∧ n ≤ 90 then some (n - 65)
  else if 97 ≤ n ∧ n ≤ 122 then some (26 + (n - 97))
  else if 48 ≤ n ∧ n ≤ 57 then some (52 + (n - 48))
  else if c = '+' then some 62
  else if c = '/' then some 63
  else none

/-- Encode a byte list into base64 characters, with `=` padding (btoa). -/
def b64Chunks : List Nat → List Char
  | [] => []
  | [a] => [b64CharOfIndex (a / 4), b64CharOfIndex ((a % 4) * 16), '=', '=']
  | [a, b] => [b64CharOfIndex (a / 4), b64CharOfIndex ((a % 4) * 16 + b / 16),
               b64CharOfIndex ((b % 16) * 4), '=']
  | a :: b :: c :: rest =>
      b64CharOfIndex (a / 4) :: b64CharOfIndex ((a % 4) * 16 + b / 16) ::
      b64CharOfIndex ((b % 16) * 4 + c / 64) :: b64CharOfIndex (c % 64) :: b64Chunks rest

/-- `b64e` from the source: bytes to a base64 string (via btoa). -/
def b64e (bs : List Nat) : String := String.mk (b64Chunks bs)

/-- Decode base64 characters (no padding allowed here); none on invalid input. -/
def b64Core : List Char → Option (List Nat)
  | [] => some []
  | c1 :: c2 :: c3 :: c4 :: rest => do
      let i1 ← b64IndexOfChar c1
      let i2 ← b64IndexOfChar c2
      let i3 ← b64IndexOfChar c3
      let i4 ← b64IndexOfChar c4
      let tl ← b64Core rest
      some ((i1 * 4 + i2 / 16) :: ((i2 % 16) * 16 + i3 / 4) :: ((i3 % 4) * 64 + i4) :: tl)
  | [c1, c2] => do
      let i1 ← b64IndexOfChar c1
      let i2 ← b64IndexOfChar c2
      some [i1 * 4 + i2 / 16]
  | [c1, c2, c3] => do
      let i1 ← b64IndexOfChar c1
      let i2 ← b64IndexOfChar c2
      let i3 ← b64IndexOfChar c3
      some [i1 * 4 + i2 / 16, (i2 % 16) * 16 + i3 / 4]
  | [_] => none

/-- Drop one leading `=` of a character list, if present. -/
def trimEq (cs : List Char) : List Char :=
  match cs with
  | '=' :: r => r
  | _ => cs

/-- Remove up to two trailing `=` characters. -/
def dropPadding (cs : List Char) : List Char :=
  (trimEq (trimEq cs.reverse)).reverse

/-- `b64d` from the source: base64 string to bytes (via atob); none models the
atob InvalidCharacterError exception. -/
def b64d (s : String) : Option (List Nat) :=
  let cs := s.data
  let core := if cs.length % 4 = 0 then dropPadding cs else cs
  b64Core core

theorem b64IndexOfChar_b64CharOfIndex : ∀ i : Fin 64, b64IndexOfChar (b64CharOfIndex i.val) = some i.val := by
  decide

theorem b64Char_ne_pad : ∀ i : Fin 64, b64CharOfIndex i.val ≠ '=' := by
  decide

theorem b64IndexOfChar_of_lt (i : Nat) (h : i < 64) : b64IndexOfChar (b64CharOfIndex i) = some i :=
  b64IndexOfChar_b64CharOfIndex ⟨i, h⟩

theorem b64Char_ne_pad_of_lt (i : Nat) (h : i < 64) : b64CharOfIndex i ≠ '=' :=
  b64Char_ne_pad ⟨i, h⟩

theorem b64Core_chunk (a b c : Nat) (ha : a < 256) (hb : b < 256) (hc : c < 256)
    (rest : List Char) (tl : List Nat) (h : b64Core rest = some tl) :
    b64Core (b64CharOfIndex (a / 4) :: b64CharOfIndex ((a % 4) * 16 + b / 16) ::
      b64CharOfIndex ((b % 16) * 4 + c / 64) :: b64CharOfIndex (c % 64) :: rest)
      = some (a :: b :: c :: tl) := by
  have h1 := b64IndexOfChar_of_lt (a / 4) (by omega)
  have h2 := b64IndexOfChar_of_lt ((a % 4) * 16 + b / 16) (by omega)
  have h3 := b64IndexOfChar_of_lt ((b % 16) * 4 + c / 64) (by omega)
  have h4 := b64IndexOfChar_of_lt (c % 64) (by omega)
  simp only [b64Core, h1, h2, h3, h4, h, Option.bind_eq_bind, Option.some_bind]
  congr 1
  have e1 : (a / 4) * 4 + ((a % 4) * 16 + b / 16) / 16 = a := by omega
  have e2 : (((a % 4) * 16 + b / 16) % 16) * 16 + ((b % 16) * 4 + c / 64) / 4 = b := by omega
  have e3 : (((b % 16) * 4 + c / 64) % 4) * 64 + c % 64 = c := by omega
  rw [e1, e2, e3]

theorem b64Chunks_length_mod : ∀ bs : List Nat, (b64Chunks bs).length % 4 = 0 := by
  intro bs
  induction bs using b64Chunks.induct with
  | case1 => simp [b64Chunks]
  | case2 a => simp [b64Chunks]
  | case3 a b => simp [b64Chunks]
  | case4 a b c rest ih => simp [b64Chunks]; omega

theorem trimEq_append (ys xs : List Char) (h : ys ≠ []) :
    trimEq (ys ++ xs) = trimEq ys ++ xs := by
  match ys with
  | [] => exact absurd rfl h
  | y :: t =>
    by_cases hy : y = '='
    · subst hy; simp [trimEq]
    · simp only [List.cons_append, trimEq]
      split
      · next heq => rw [List.cons_eq_cons] at heq; exact absurd heq.1 hy
      · split
        · next heq => rw [List.cons_eq_cons] at heq; exact absurd heq.1 hy
        · rfl

theorem trimEq_length_ge (cs : List Char) : cs.length - 1 ≤ (trimEq cs).length := by
  unfold trimEq
  split <;> simp

theorem trimEq_pad (t : List Char) : trimEq ('=' :: t) = t := rfl

theorem trimEq_of_ne (y : Char) (t : List Char) (hy : y ≠ '=') : trimEq (y :: t) = y :: t := by
  unfold trimEq
  split
  · next heq => rw [List.cons_eq_cons] at heq; exact absurd heq.1 hy
  · rfl

theorem dropPadding_three (x y z : Char) (hz : z ≠ '=') :
    dropPadding [x, y, z, '='] = [x, y, z] := by
  unfold dropPadding
  have hrev : ([x, y, z, '='] : List Char).reverse = ['=', z, y, x] := by simp
  rw [hrev, trimEq_pad, trimEq_of_ne z [y, x] hz]
  simp

theorem dropPadding_two_pads (x y : Char) : dropPadding [x, y, '=', '='] = [x, y] := by
  unfold dropPadding
  have hrev : ([x, y, '=', '='] : List Char).reverse = ['=', '=', y, x] := by simp
  rw [hrev, trimEq_pad, trimEq_pad]
  simp

theorem trimEq_ne_nil (cs : List Char) (h : 2 ≤ cs.length) : trimEq cs ≠ [] := by
  have := trimEq_length_ge cs
  intro hc
  rw [hc] at this
  simp at this
  omega

theorem dropPadding_append (xs ys : List Char) (h : 2 ≤ ys.length) :
    dropPadding (xs ++ ys) = xs ++ dropPadding ys := by
  unfold dropPadding
  rw [List.reverse_append]
  have h1 : ys.reverse ≠ [] := by
    intro hc; rw [List.reverse_eq_nil_iff] at hc; subst hc; simp at h
  rw [trimEq_append _ _ h1]
  have h2 : trimEq ys.reverse ≠ [] := by
    apply trimEq_ne_nil; simp [h]
  rw [trimEq_append _ _ h2]
  simp

theorem b64Chunks_two_le_length (bs : List Nat) (h : bs ≠ []) :
    2 ≤ (b64Chunks bs).length := by
  match bs with
  | [] => exact absurd rfl h
  | [a] => simp [b64Chunks]
  | [a, b] => simp [b64Chunks]
  | a :: b :: c :: rest => simp [b64Chunks]

theorem dropPadding_no_pad (cs : List Char) (h : ∀ c ∈ cs.getLast?, c ≠ '=') :
    dropPadding cs = cs := by
  unfold dropPadding
  match hcs : cs.reverse with
  | [] =>
    rw [List.reverse_eq_nil_iff] at hcs; subst hcs; rfl
  | y :: t =>
    have hy : y ≠ '=' := by
      apply h
      rw [← List.head?_reverse, hcs]; rfl
    have : trimEq (y :: t) = y :: t := by
      unfold trimEq
      split
      · next heq => rw [List.cons_eq_cons] at heq; exact absurd heq.1 hy
      · rfl
    rw [this, this, ← hcs, List.reverse_reverse]

theorem b64Core_dropPadding_chunks (bs : List Nat) (h : ∀ x ∈ bs, x < 256) :
    b64Core (dropPadding (b64Chunks bs)) = some bs := by
  induction bs using b64Chunks.induct with
  | case1 => simp [b64Chunks, dropPadding, trimEq, b64Core]
  | case2 a =>
    have ha : a < 256 := h a (by simp)
    have hd : dropPadding (b64Chunks [a])
        = [b64CharOfIndex (a / 4), b64CharOfIndex ((a % 4) * 16)] := by
      simp only [b64Chunks]
      exact dropPadding_two_pads _ _
    rw [hd]
    have h1 := b64IndexOfChar_of_lt (a / 4) (by omega)
    have h2 := b64IndexOfChar_of_lt ((a % 4) * 16) (by omega)
    simp only [b64Core, h1, h2, Option.bind_eq_bind, Option.some_bind]
    congr 2
    omega
  | case3 a b =>
    have ha : a < 256 := h a (by simp)
    have hb : b < 256 := h b (by simp)
    have hne : b64CharOfIndex ((b % 16) * 4) ≠ '=' := b64Char_ne_pad_of_lt _ (by omega)
    have hd : dropPadding (b64Chunks [a, b])
        = [b64CharOfIndex (a / 4), b64CharOfIndex ((a % 4) * 16 + b / 16),
           b64CharOfIndex ((b % 16) * 4)] := by
      simp only [b64Chunks]
      exact dropPadding_three _ _ _ hne
    rw [hd]
    have h1 := b64IndexOfChar_of_lt (a / 4) (by omega)
    have h2 := b64IndexOfChar_of_lt ((a % 4) * 16 + b / 16) (by omega)
    have h3 := b64IndexOfChar_of_lt ((b % 16) * 4) (by omega)
    simp only [b64Core, h1, h2, h3, Option.bind_eq_bind, Option.some_bind]
    congr 1
    have e1 : (a / 4) * 4 + ((a % 4) * 16 + b / 16) / 16 = a := by omega
    have e2 : (((a % 4) * 16 + b / 16) % 16) * 16 + ((b % 16) * 4) / 4 = b := by omega
    rw [e1, e2]
  | case4 a b c rest ih =>
    have ha : a < 256 := h a (by simp)
    have hb : b < 256 := h b (by simp)
    have hc : c < 256 := h c (by simp)
    have hrest : ∀ x ∈ rest, x < 256 := fun x hx => h x (by simp [hx])
    by_cases hr : rest = []
    · subst hr
      have hlast : ∀ ch ∈ (b64Chunks [a, b, c]).getLast?, ch ≠ '=' := by
        intro ch hch
        simp [b64Chunks, List.getLast?] at hch
        subst hch
        exact b64Char_ne_pad_of_lt _ (by omega)
      rw [dropPadding_no_pad _ hlast]
      simp only [b64Chunks]
      exact b64Core_chunk a b c ha hb hc [] [] rfl
    · have hchunks : b64Chunks (a :: b :: c :: rest)
          = [b64CharOfIndex (a / 4), b64CharOfIndex ((a % 4) * 16 + b / 16),
             b64CharOfIndex ((b % 16) * 4 + c / 64), b64CharOfIndex (c % 64)]
            ++ b64Chunks rest := by
        simp [b64Chunks]
      rw [hchunks, dropPadding_append _ _ (b64Chunks_two_le_length rest hr)]
      simp only [List.cons_append, List.nil_append]
      exact b64Core_chunk a b c ha hb hc _ _ (ih hrest)

/-- Base64 round-trip: decoding an encoded byte list restores it. -/
theorem b64d_b64e (bs : List Nat) (h : ∀ x ∈ bs, x < 256) : b64d (b64e bs) = some bs := by
  unfold b64d b64e
  simp only [String.data]
  rw [if_pos (b64Chunks_length_mod bs)]
  exact b64Core_dropPadding_chunks bs h

theorem b64e_ne_empty (bs : List Nat) (h : bs ≠ []) : b64e bs ≠ "" := by
  intro hc
  have hdata : b64Chunks bs = [] := congrArg String.data hc
  have h2 := b64Chunks_two_le_length bs h
  rw [hdata] at h2
  simp at h2

/-! ## UTF-8 (model of TextEncoder / TextDecoder) -/

/-- UTF-8 encoding of a single unicode scalar value. -/
def utf8EncodeChar (c : Char) : List Nat :=
  if c.toNat < 128 then [c.toNat]
  else if c.toNat < 2048 then [192 + c.toNat / 64, 128 + c.toNat % 64]
  else if c.toNat < 65536 then
    [224 + c.toNat / 4096, 128 + (c.toNat / 64) % 64, 128 + c.toNat % 64]
  else
    [240 + c.toNat / 262144, 128 + (c.toNat / 4096) % 64, 128 + (c.toNat / 64) % 64,
     128 + c.toNat % 64]

/-- UTF-8 encoding of a character list. -/
def utf8EncodeList : List Char → List Nat
  | [] => []
  | c :: cs => utf8EncodeChar c ++ utf8EncodeList cs

/-- `te.encode` from the source: the TextEncoder UTF-8 bytes of a string. -/
def utf8Encode (s : String) : List Nat := utf8EncodeList s.data

/-- The U+FFFD replacement character emitted for malformed input. -/
def replChar : Char := Char.ofNat 65533

/-- Is the byte a UTF-8 continuation byte? -/
def isCont (b : Nat) : Bool := 128 ≤ b && b < 192

/-- Decode one code point: leading byte, following bytes; returns the decoded
character (U+FFFD replacement on malformed input) and the remaining bytes. -/
def utf8Step (b0 : Nat) (rest : List Nat) : Char × List Nat :=
  if b0 < 128 then (Char.ofNat b0, rest)
  else if b0 < 194 then (replChar, rest)
  else if b0 < 224 then
    match rest with
    | b1 :: rest1 =>
      if isCont b1 then (Char.ofNat ((b0 - 192) * 64 + (b1 - 128)), rest1)
      else (replChar, rest)
    | [] => (replChar, [])
  else if b0 < 240 then
    match rest with
    | b1 :: b2 :: rest2 =>
      if isCont b1 && isCont b2 then
        if 2048 ≤ (b0 - 224) * 4096 + (b1 - 128) * 64 + (b2 - 128)
            ∧ ((b0 - 224) * 4096 + (b1 - 128) * 64 + (b2 - 128) < 55296
               ∨ 57344 ≤ (b0 - 224) * 4096 + (b1 - 128) * 64 + (b2 - 128)) then
          (Char.ofNat ((b0 - 224) * 4096 + (b1 - 128) * 64 + (b2 - 128)), rest2)
        else (replChar, rest)
      else (replChar, rest)
    | _ => (replChar, rest)
  else if b0 < 245 then
    match rest with
    | b1 :: b2 :: b3 :: rest3 =>
      if isCont b1 && isCont b2 && isCont b3 then
        if 65536 ≤ (b0 - 240) * 262144 + (b1 - 128) * 4096 + (b2 - 128) * 64 + (b3 - 128)
            ∧ (b0 - 240) * 262144 + (b1 - 128) * 4096 + (b2 - 128) * 64 + (b3 - 128) < 1114112 then
          (Char.ofNat ((b0 - 240) * 262144 + (b1 - 128) * 4096 + (b2 - 128) * 64 + (b3 - 128)), rest3)
        else (replChar, rest)
      else (replChar, rest)
    | _ => (replChar, rest)
  else (replChar, rest)

theorem utf8Step_length (b0 : Nat) (rest : List Nat) :
    (utf8Step b0 rest).2.length ≤ rest.length := by
  unfold utf8Step
  repeat' split
  all_goals simp_all
  all_goals omega

/-- Fuelled decoding loop; the fuel bounds the number of decoded characters. -/
def utf8DecodeGo : Nat → List Nat → List Char
  | 0, _ => []
  | _ + 1, [] => []
  | fuel + 1, b0 :: rest =>
    (utf8Step b0 rest).1 :: utf8DecodeGo fuel (utf8Step b0 rest).2

/-- UTF-8 decoding with U+FFFD replacement on malformed input (the default,
non-fatal TextDecoder). -/
def utf8DecodeList (l : List Nat) : List Char := utf8DecodeGo l.length l

theorem utf8DecodeGo_fuel (fuel1 : Nat) (fuel2 : Nat) (l : List Nat)
    (h1 : l.length ≤ fuel1) (h2 : l.length ≤ fuel2) :
    utf8DecodeGo fuel1 l = utf8DecodeGo fuel2 l := by
  induction fuel1 generalizing fuel2 l with
  | zero =>
    have : l = [] := by
      cases l with
      | nil => rfl
      | cons a t => simp at h1
    subst this
    cases fuel2 <;> rfl
  | succ f ih =>
    cases l with
    | nil => cases fuel2 <;> rfl
    | cons b0 rest =>
      cases fuel2 with
      | zero => simp at h2
      | succ g =>
        show (utf8Step b0 rest).1 :: utf8DecodeGo f (utf8Step b0 rest).2
            = (utf8Step b0 rest).1 :: utf8DecodeGo g (utf8Step b0 rest).2
        have hs := utf8Step_length b0 rest
        rw [ih g (utf8Step b0 rest).2 (by simp at h1; omega) (by simp at h2; omega)]

/-- `td.decode` from the source: TextDecoder decoding of UTF-8 bytes. -/
def utf8Decode (bs : List Nat) : String := String.mk (utf8DecodeList bs)

theorem char_toNat_valid (c : Char) : c.toNat < 55296 ∨ (57343 < c.toNat ∧ c.toNat < 1114112) := by
  have h := c.valid
  rcases h with h | h
  · left
    have : c.toNat = c.val.toNat := rfl
    rw [this]
    exact h
  · right
    have h1 : c.toNat = c.val.toNat := rfl
    rw [h1]
    exact ⟨h.1, h.2⟩

theorem utf8DecodeList_cons (b : Nat) (l : List Nat) :
    utf8DecodeList (b :: l) = (utf8Step b l).1 :: utf8DecodeList (utf8Step b l).2 := by
  unfold utf8DecodeList
  show utf8DecodeGo (l.length + 1) (b :: l)
      = (utf8Step b l).1 :: utf8DecodeGo (utf8Step b l).2.length (utf8Step b l).2
  rw [utf8DecodeGo]
  have hs := utf8Step_length b l
  rw [utf8DecodeGo_fuel l.length (utf8Step b l).2.length (utf8Step b l).2 (by omega) (by omega)]

theorem utf8Step_enc1 (n : Nat) (h : n < 128) (rest : List Nat) :
    utf8Step n rest = (Char.ofNat n, rest) := by
  simp [utf8Step, h]

theorem utf8Step_enc2 (n : Nat) (h1 : 128 ≤ n) (h2 : n < 2048) (rest : List Nat) :
    utf8Step (192 + n / 64) ((128 + n % 64) :: rest) = (Char.ofNat n, rest) := by
  have ha : ¬ (192 + n / 64 < 128) := by omega
  have hb : ¬ (192 + n / 64 < 194) := by omega
  have hc : 192 + n / 64 < 224 := by omega
  have hd : isCont (128 + n % 64) = true := by simp only [isCont]; simp; omega
  simp only [utf8Step, ha, hb, hc, hd, if_false, if_true]
  have he : (192 + n / 64 - 192) * 64 + (128 + n % 64 - 128) = n := by omega
  rw [he]

theorem utf8Step_enc3 (n : Nat) (h1 : 2048 ≤ n) (h2 : n < 65536)
    (hns : n < 55296 ∨ 57344 ≤ n) (rest : List Nat) :
    utf8Step (224 + n / 4096) ((128 + (n / 64) % 64) :: (128 + n % 64) :: rest)
      = (Char.ofNat n, rest) := by
  have ha : ¬ (224 + n / 4096 < 128) := by omega
  have hb : ¬ (224 + n / 4096 < 194) := by omega
  have hc : ¬ (224 + n / 4096 < 224) := by omega
  have hd : 224 + n / 4096 < 240 := by omega
  have he : isCont (128 + (n / 64) % 64) = true := by simp only [isCont]; simp; omega
  have hf : isCont (128 + n % 64) = true := by simp only [isCont]; simp; omega
  have hg : (224 + n / 4096 - 224) * 4096 + (128 + (n / 64) % 64 - 128) * 64
      + (128 + n % 64 - 128) = n := by omega
  simp only [utf8Step, ha, hb, hc, hd, he, hf, if_false, if_true, Bool.and_self, hg]
  have hcond : 2048 ≤ n ∧ (n < 55296 ∨ 57344 ≤ n) := ⟨h1, hns⟩
  rw [if_pos hcond]

theorem utf8Step_enc4 (n : Nat) (h1 : 65536 ≤ n) (h2 : n < 1114112) (rest : List Nat) :
    utf8Step (240 + n / 262144)
      ((128 + (n / 4096) % 64) :: (128 + (n / 64) % 64) :: (128 + n % 64) :: rest)
      = (Char.ofNat n, rest) := by
  have ha : ¬ (240 + n / 262144 < 128) := by omega
  have hb : ¬ (240 + n / 262144 < 194) := by omega
  have hc : ¬ (240 + n / 262144 < 224) := by omega
  have hd : ¬ (240 + n / 262144 < 240) := by omega
  have hd2 : 240 + n / 262144 < 245 := by omega
  have he : isCont (128 + (n / 4096) % 64) = true := by simp only [isCont]; simp; omega
  have hf : isCont (128 + (n / 64) % 64) = true := by simp only [isCont]; simp; omega
  have hg : isCont (128 + n % 64) = true := by simp only [isCont]; simp; omega
  have hh : (240 + n / 262144 - 240) * 262144 + (128 + (n / 4096) % 64 - 128) * 4096
      + (128 + (n / 64) % 64 - 128) * 64 + (128 + n % 64 - 128) = n := by omega
  simp only [utf8Step, ha, hb, hc, hd, hd2, he, hf, hg, if_false, if_true, Bool.and_self, hh]
  have hcond : 65536 ≤ n ∧ n < 1114112 := ⟨h1, h2⟩
  rw [if_pos hcond]

theorem utf8DecodeList_encodeChar (c : Char) (rest : List Nat) :
    utf8DecodeList (utf8EncodeChar c ++ rest) = c :: utf8DecodeList rest := by
  have hv := char_toNat_valid c
  by_cases h1 : c.toNat < 128
  · simp only [utf8EncodeChar, if_pos h1, List.cons_append, List.nil_append]
    rw [utf8DecodeList_cons, utf8Step_enc1 _ h1, Char.ofNat_toNat]
  · by_cases h2 : c.toNat < 2048
    · simp only [utf8EncodeChar, if_neg h1, if_pos h2, List.cons_append, List.nil_append]
      rw [utf8DecodeList_cons, utf8Step_enc2 _ (by omega) h2, Char.ofNat_toNat]
    · by_cases h3 : c.toNat < 65536
      · have hns : c.toNat < 55296 ∨ 57344 ≤ c.toNat := by omega
        simp only [utf8EncodeChar, if_neg h1, if_neg h2, if_pos h3, List.cons_append,
          List.nil_append]
        rw [utf8DecodeList_cons, utf8Step_enc3 _ (by omega) h3 hns, Char.ofNat_toNat]
      · have h4 : c.toNat < 1114112 := by omega
        simp only [utf8EncodeChar, if_neg h1, if_neg h2, if_neg h3, List.cons_append,
          List.nil_append]
        rw [utf8DecodeList_cons, utf8Step_enc4 _ (by omega) h4, Char.ofNat_toNat]

theorem utf8DecodeList_utf8EncodeList (l : List Char) :
    utf8DecodeList (utf8EncodeList l) = l := by
  induction l with
  | nil => rfl
  | cons c cs ih =>
    rw [utf8EncodeList, utf8DecodeList_encodeChar, ih]

/-- UTF-8 round-trip: decoding an encoded string restores it. -/
theorem utf8Decode_utf8Encode (s : String) : utf8Decode (utf8Encode s) = s := by
  obtain ⟨l⟩ := s
  unfold utf8Decode utf8Encode
  rw [utf8DecodeList_utf8EncodeList]

theorem utf8EncodeChar_lt (c : Char) : ∀ b ∈ utf8EncodeChar c, b < 256 := by
  have hv := char_toNat_valid c
  unfold utf8EncodeChar
  split_ifs with h1 h2 h3 <;> simp <;> omega

theorem utf8EncodeList_lt (l : List Char) : ∀ b ∈ utf8EncodeList l, b < 256 := by
  induction l with
  | nil => simp [utf8EncodeList]
  | cons c cs ih =>
    intro b hb
    rw [utf8EncodeList, List.mem_append] at hb
    rcases hb with hb | hb
    · exact utf8EncodeChar_lt c b hb
    · exact ih b hb

theorem utf8Encode_lt (s : String) : ∀ b ∈ utf8Encode s, b < 256 :=
  utf8EncodeList_lt s.data

/-! ## Idealized WebCrypto AEAD (crypto.subtle AES-GCM with HKDF / PBKDF2 keys)

Modelled from the spec: the browser WebCrypto primitives are not part of the
repository sources.  The spec requires an authenticated-encryption scheme whose
decryption inverts encryption under the same key and nonce; keys derived by
HKDF or PBKDF2 are deterministic functions of their inputs.  They are idealized
here as a tag-checked construction over byte lists. -/

/-- A derived symmetric key, remembering the derivation inputs.  HKDF keys are
determined by master-key bytes, salt and info; PBKDF2 keys by passphrase bytes,
salt and iteration count. -/
inductive AesKey where
  | hkdf (master : List Nat) (salt : List Nat) (info : List Nat)
  | pbkdf2 (pass : List Nat) (salt : List Nat) (iterations : Nat)
deriving DecidableEq

/-- Injective byte encoding of a key, used by the tag function. -/
def keyEncoding : AesKey → List Nat
  | .hkdf m s i => 0 :: m.length :: s.length :: (m ++ s ++ i)
  | .pbkdf2 p s it => 1 :: p.length :: it :: (p ++ s)

/-- A simple deterministic mixing fold standing in for the GCM ghash. -/
def mixSeed (l : List Nat) : Nat := l.foldl (fun a b => (a * 131 + b + 7) % 65536) 0

/-- The 16-byte authentication tag of the idealized AEAD. -/
def gcmTag (k : AesKey) (iv pt : List Nat) : List Nat :=
  (List.range 16).map (fun j => (mixSeed (keyEncoding k ++ iv ++ pt) + j) % 256)

/-- Modelled from the spec: crypto.subtle.encrypt with AES-GCM — ciphertext is
plaintext followed by the 16-byte tag. -/
def aesGcmEncrypt (k : AesKey) (iv pt : List Nat) : List Nat := pt ++ gcmTag k iv pt

/-- Modelled from the spec: crypto.subtle.decrypt with AES-GCM — checks the tag
and strips it; none models the authentication-failure exception. -/
def aesGcmDecrypt (k : AesKey) (iv ct : List Nat) : Option (List Nat) :=
  if 16 ≤ ct.length then
    let pt := ct.take (ct.length - 16)
    let tag := ct.drop (ct.length - 16)
    if tag = gcmTag k iv pt then some pt else none
  else none

theorem gcmTag_length (k : AesKey) (iv pt : List Nat) : (gcmTag k iv pt).length = 16 := by
  simp [gcmTag]

theorem gcmTag_lt (k : AesKey) (iv pt : List Nat) : ∀ b ∈ gcmTag k iv pt, b < 256 := by
  intro b hb
  simp only [gcmTag, List.mem_map] at hb
  obtain ⟨j, _, hj⟩ := hb
  omega

/-- AEAD round-trip: decrypting with the same key and nonce restores the
plaintext. -/
theorem aesGcmDecrypt_aesGcmEncrypt (k : AesKey) (iv pt : List Nat) :
    aesGcmDecrypt k iv (aesGcmEncrypt k iv pt) = some pt := by
  unfold aesGcmDecrypt aesGcmEncrypt
  have hlen : (pt ++ gcmTag k iv pt).length = pt.length + 16 := by
    simp [gcmTag_length]
  rw [if_pos (by omega)]
  have htake : (pt ++ gcmTag k iv pt).take ((pt ++ gcmTag k iv pt).length - 16) = pt := by
    rw [hlen]
    have : pt.length + 16 - 16 = pt.length := by omega
    rw [this, List.take_left]
  have hdrop : (pt ++ gcmTag k iv pt).drop ((pt ++ gcmTag k iv pt).length - 16)
      = gcmTag k iv pt := by
    rw [hlen]
    have : pt.length + 16 - 16 = pt.length := by omega
    rw [this, List.drop_left]
  rw [htake, hdrop, if_pos rfl]

theorem aesGcmEncrypt_lt (k : AesKey) (iv pt : List Nat) (h : ∀ b ∈ pt, b < 256) :
    ∀ b ∈ aesGcmEncrypt k iv pt, b < 256 := by
  intro b hb
  rw [aesGcmEncrypt, List.mem_append] at hb
  rcases hb with hb | hb
  · exact h b hb
  · exact gcmTag_lt k iv pt b hb

theorem aesGcmEncrypt_ne_nil (k : AesKey) (iv pt : List Nat) : aesGcmEncrypt k iv pt ≠ [] := by
  intro hc
  have := congrArg List.length hc
  simp [aesGcmEncrypt, gcmTag_length] at this

/-! ## JavaScript value helpers -/

/-- JS truthiness of a nullable string: null and the empty string are falsy. -/
def jsTruthy : Option String → Bool
  | none => false
  | some s => s != ""

/-- JS `x || ""` on a nullable string. -/
def jsOr : Option String → String
  | none => ""
  | some s => s

/-- JS `x || null` on a nullable string: the empty string collapses to null. -/
def jsOrNull : Option String → Option String
  | none => none
  | some s => if s = "" then none else some s

/-- JS string coercion of a nullable string: `String(null)` is `"null"`. -/
def stringOfNullable : Option String → String
  | none => "null"
  | some s => s

/-! ## ChatModal crypto helpers (src/unnamed/part_001 lines 61-98, identical in
src/unnamed/part_002 lines 55-92) -/

/-- The localStorage slots the chat crypto reads and writes. -/
structure StorageState where
  companyId : Option String
  chatMasterKey : Option String
deriving DecidableEq

/-- `ensureMasterKey`: null without a company id; otherwise returns the stored
master key, generating and persisting a fresh one (the `fresh` random bytes)
when absent. -/
def ensureMasterKey (st : StorageState) (fresh : List Nat) : Option String × StorageState :=
  if jsTruthy st.companyId = false then (none, st)
  else if jsTruthy st.chatMasterKey then (st.chatMasterKey, st)
  else ((some (b64e fresh)), { st with chatMasterKey := some (b64e fresh) })

/-- The HKDF info string `company:<companyId or default>|profile:<pid>`. -/
def contextInfo (cid : Option String) (pid : String) : String :=
  "company:" ++ (if jsTruthy cid then jsOr cid else "default") ++ "|profile:" ++ pid

/-- `deriveProfileKey`: HKDF(SHA-256, salt "mk_salt_v1", info contextInfo) over
the base64-decoded master key.  A null master key is coerced by atob to the
string "null"; none models the atob exception on invalid base64. -/
def deriveProfileKey (cid : Option String) (masterB64 : Option String) (pid : String) :
    Option AesKey :=
  (b64d (stringOfNullable masterB64)).map fun raw =>
    AesKey.hkdf raw (utf8Encode "mk_salt_v1") (utf8Encode (contextInfo cid pid))

/-- The `{content_enc, content_nonce, content_salt}` object produced by
`encryptWithProfile`. -/
structure EncryptedPayload where
  content_enc : String
  content_nonce : String
  content_salt : String
deriving DecidableEq

/-- `encryptWithProfile`: ensure the master key, derive the profile key, AES-GCM
encrypt the UTF-8 text under the random 12-byte `iv`, and base64-encode the
parts. none models an uncaught exception. -/
def encryptWithProfile (st : StorageState) (pid : String) (freshKey iv : List Nat)
    (text : String) : Option (EncryptedPayload × StorageState) :=
  let r := ensureMasterKey st freshKey
  (deriveProfileKey r.2.companyId r.1 pid).map fun key =>
    ({ content_enc := b64e (aesGcmEncrypt key iv (utf8Encode text)),
       content_nonce := b64e iv,
       content_salt := b64e (utf8Encode "mk_salt_v1") }, r.2)

/-- `decryptWithProfile`: null when either part is missing; otherwise derive the
same key and try to decrypt, returning null (inner none) on any failure caught
by the try block.  The outer none models an exception outside the try block. -/
def decryptWithProfile (st : StorageState) (pid : String) (freshKey : List Nat)
    (enc nonce : Option String) : Option (Option String) :=
  if jsTruthy enc = false ∨ jsTruthy nonce = false then some none
  else
    let r := ensureMasterKey st freshKey
    (deriveProfileKey st.companyId r.1 pid).map fun key =>
      match b64d (jsOr nonce), b64d (jsOr enc) with
      | some ivb, some ctb =>
        match aesGcmDecrypt key ivb ctb with
        | some ptb => some (utf8Decode ptb)
        | none => none
      | _, _ => none

/-! ## Messages and server rows -/

/-- The Message type of ChatModal. -/
structure Message where
  id : String
  role : String
  content : String
  created_at : Option String
deriving DecidableEq

/-- A raw message row as returned by the server history / edit endpoints. -/
structure ServerRow where
  id : String
  role : String
  content : Option String
  content_enc : Option String
  content_nonce : Option String
  created_at : Option String
deriving DecidableEq

/-! ## Content resolution (history load and edit reconciliation) -/

/-- History-load row resolution of src/unnamed/part_001 lines 119-127: try
decryption first (when ciphertext and nonce are present), fall back to the
plaintext field.  none models an exception escaping the loop. -/
def resolveHistoryRow1 (st : StorageState) (pid : String) (fresh : List Nat)
    (m : ServerRow) : Option Message :=
  let step1 : Option String :=
    if jsTruthy m.content_enc = true ∧ jsTruthy m.content_nonce = true then
      match decryptWithProfile st pid fresh m.content_enc m.content_nonce with
      | some dec => some (jsOr dec)
      | none => none
    else some ""
  step1.map fun t =>
    let text := if t = "" then jsOr m.content else t
    { id := m.id, role := m.role, content := text, created_at := m.created_at }

/-- Edit-reconciliation row resolution of src/unnamed/part_001 lines 344-356:
decryption first, then the plaintext field, then the previously rendered
content cached for that message id. -/
def resolveEditRow1 (st : StorageState) (pid : String) (fresh : List Nat)
    (cache : List Message) (m : ServerRow) : Option Message :=
  let step1 : Option String :=
    if jsTruthy m.content_enc = true ∧ jsTruthy m.content_nonce = true then
      match decryptWithProfile st pid fresh m.content_enc m.content_nonce with
      | some dec => some (jsOr dec)
      | none => none
    else some ""
  step1.map fun t =>
    let text := if t = "" then jsOr m.content else t
    let text2 :=
      if text = "" then
        match cache.find? (fun p => p.id == m.id) with
        | some p => if p.content ≠ "" then p.content else text
        | none => text
      else text
    { id := m.id, role := m.role, content := text2, created_at := m.created_at }

/-- History-load row resolution of src/unnamed/part_002 lines 112-118: the
plaintext field first, then decryption. -/
def resolveHistoryRow2 (st : StorageState) (pid : String) (fresh : List Nat)
    (m : ServerRow) : Option Message :=
  let step1 : Option String :=
    if jsOr m.content = "" ∧ jsTruthy m.content_enc = true ∧ jsTruthy m.content_nonce = true then
      match decryptWithProfile st pid fresh m.content_enc m.content_nonce with
      | some dec => some (jsOr dec)
      | none => none
    else some (jsOr m.content)
  step1.map fun text =>
    { id := m.id, role := m.role, content := text, created_at := m.created_at }

/-- Edit-reconciliation row resolution of src/unnamed/part_002 lines 260-270:
the plaintext field first, then decryption, then the cached content. -/
def resolveEditRow2 (st : StorageState) (pid : String) (fresh : List Nat)
    (cache : List Message) (m : ServerRow) : Option Message :=
  let step1 : Option String :=
    if jsOr m.content = "" ∧ jsTruthy m.content_enc = true ∧ jsTruthy m.content_nonce = true then
      match decryptWithProfile st pid fresh m.content_enc m.content_nonce with
      | some dec => some (jsOr dec)
      | none => none
    else some (jsOr m.content)
  step1.map fun text =>
    let text2 :=
      if text = "" then
        match cache.find? (fun p => p.id == m.id) with
        | some p => if p.content ≠ "" then p.content else text
        | none => text
      else text
    { id := m.id, role := m.role, content := text2, created_at := m.created_at }

/-! ## Send and edit state transitions -/

/-- The optimistic append performed by `send` before the request. -/
def sendOptimistic (msgs : List Message) (temp : Message) : List Message := msgs ++ [temp]

/-- The catch branch of `send` (part_001 line 191, part_002 line 167): filter
out the temporary id. -/
def sendRevert (msgs : List Message) (tempId : String) : List Message :=
  msgs.filter (fun m => !(m.id == tempId))

/-- The whole failed-send round: optimistic append followed by revert. -/
def sendFailedRound (msgs : List Message) (temp : Message) : List Message :=
  sendRevert (sendOptimistic msgs temp) temp.id

/-- The optimistic edit-save update (part_001 lines 327-333): rewrite the
target message in place and drop every later message. -/
def editOptimistic (msgs : List Message) (targetId : String) (newText : String) :
    List Message :=
  match msgs.findIdx? (fun x => x.id == targetId) with
  | none => msgs
  | some i =>
    match msgs[i]? with
    | some mi => (msgs.set i { mi with content := newText }).take (i + 1)
    | none => msgs

/-- The UI state touched by the edit-save handler. -/
structure EditUiState where
  messages : List Message
  editingId : Option String
  editText : String
  sending : Bool
deriving DecidableEq

/-- The edit endpoint response as seen by the handler. -/
structure EditResponse where
  ok : Bool
  messages : List ServerRow
deriving DecidableEq

/-- Resolve a list of server rows with resolveEditRow1, aborting on exception. -/
def resolveRows1 (st : StorageState) (pid : String) (fresh : List Nat)
    (cache : List Message) : List ServerRow → Option (List Message)
  | [] => some []
  | r :: rs => do
      let m ← resolveEditRow1 st pid fresh cache r
      let tl ← resolveRows1 st pid fresh cache rs
      some (m :: tl)

/-- The edit-save click handler of src/unnamed/part_001 lines 323-365: guard on
threadId, optimistic truncation, request; on failure alert and return early; on
success rebuild the list from the response rows (the cache being the
pre-optimistic `messages` value captured by the closure), exit edit mode and
clear the in-flight flag. -/
def editSaveClick (ui : EditUiState) (targetId : String) (threadId : Option String)
    (st : StorageState) (pid : String) (fresh : List Nat) (resp : EditResponse) :
    Option EditUiState :=
  if jsTruthy threadId = false then some ui
  else
    let ui1 : EditUiState :=
      { ui with sending := true, messages := editOptimistic ui.messages targetId ui.editText }
    if resp.ok = false then some ui1
    else
      (resolveRows1 st pid fresh ui.messages resp.messages).map fun display =>
        { messages := display, editingId := none, editText := "", sending := false }

/-! ## Image selection (src/unnamed/part_001 lines 198-215) -/

/-- A selected file: its MIME type and the data URL produced by FileReader. -/
structure JsFile where
  ftype : String
  url : String
deriving DecidableEq

/-- The selection loop: consume up to `take` files, keeping only image/* data
URLs. -/
def collectImages : List JsFile → Nat → List String
  | _, 0 => []
  | [], _ + 1 => []
  | f :: fs, n + 1 =>
    if f.ftype.startsWith "image/" then f.url :: collectImages fs n
    else collectImages fs n

/-- `handleImagesSelected`: no-op on an empty selection, otherwise append at
most `6 - current.length` image files to the pending list. -/
def handleImagesSelected (current : List String) (files : List JsFile) : List String :=
  if files.length = 0 then current
  else current ++ collectImages files (min files.length (6 - current.length))

/-! ## Key backup export / import (src/unnamed/part_000 lines 897-941) -/

/-- The JSON backup artifact `{v, cid, salt, iv, data}` written by Export Key. -/
structure BackupObj where
  v : Nat
  cid : Option String
  salt : String
  iv : String
  data : String
deriving DecidableEq

/-- The Export Key click handler: wrap the raw master-key bytes under a PBKDF2
(100000 iterations, SHA-256) AES-GCM key derived from the passphrase, with the
given random salt and iv; the company id is embedded via `|| null`.  none
models an exception (invalid stored key base64). -/
def exportKey (keyB64 : String) (cid : Option String) (pass : String)
    (salt iv : List Nat) : Option BackupObj :=
  (b64d keyB64).map fun raw =>
    { v := 1, cid := jsOrNull cid,
      salt := b64e salt, iv := b64e iv,
      data := b64e (aesGcmEncrypt (AesKey.pbkdf2 (utf8Encode pass) salt 100000) iv raw) }

/-- Outcome of the Import Key handler. -/
inductive ImportOutcome where
  | success (keyB64 : String)
  | tenantMismatch
  | badPassphraseOrCorrupt
deriving DecidableEq

/-- The Import Key click handler: re-derive the wrapping key from the supplied
passphrase and the artifact salt, decrypt, and compare the artifact company id
with the current one; the key is stored only when the guard
`backupCid && currentCid && backupCid !== currentCid` is false. -/
def importKey (obj : BackupObj) (pass : String) (st : StorageState) :
    ImportOutcome × StorageState :=
  match b64d obj.salt, b64d obj.iv, b64d obj.data with
  | some salt, some iv, some data =>
    match aesGcmDecrypt (AesKey.pbkdf2 (utf8Encode pass) salt 100000) iv data with
    | some raw =>
      let keyB64 := b64e raw
      let currentCid := jsOrNull st.companyId
      let backupCid := jsOrNull obj.cid
      if backupCid.isSome && currentCid.isSome && backupCid != currentCid then
        (ImportOutcome.tenantMismatch, st)
      else
        (ImportOutcome.success keyB64, { st with chatMasterKey := some keyB64 })
    | none => (ImportOutcome.badPassphraseOrCorrupt, st)
  | _, _, _ => (ImportOutcome.badPassphraseOrCorrupt, st)

/-! ## Spec-side content resolution (for refinement comparison)

Modelled from the spec: the three-step fallback orders stated in the spec for
edit reconciliation, as plain functions of the three candidate strings. -/

/-- Modelled from the spec: resolution order plaintext, then decryption, then
cache (the order the spec states for edit reconciliation). -/
def specResolvePlaintextFirst (pt dec cached : String) : String :=
  if pt ≠ "" then pt else if dec ≠ "" then dec else cached

/-- Modelled from the spec: resolution order decryption, then plaintext, then
cache. -/
def specResolveDecryptFirst (dec pt cached : String) : String :=
  if dec ≠ "" then dec else if pt ≠ "" then pt else cached

/-- The decrypted text a row yields (empty when absent or failed), as a single
value: none models a thrown exception. -/
def rowDecryptedText (st : StorageState) (pid : String) (fresh : List Nat)
    (m : ServerRow) : Option String :=
  (decryptWithProfile st pid fresh m.content_enc m.content_nonce).map jsOr

/-- The cached content the edit-reconciliation fallback would use for an id. -/
def cachedText (cache : List Message) (id : String) : String :=
  match cache.find? (fun p => p.id == id) with
  | some p => p.content
  | none => ""

/-! ## Helper lemmas about list operations -/

theorem take_succ_set {α : Type} (l : List α) (i : Nat) (v : α) (h : i < l.length) :
    (l.set i v).take (i + 1) = l.take i ++ [v] := by
  induction l generalizing i with
  | nil => simp at h
  | cons a t ih =>
    cases i with
    | zero => simp
    | succ j =>
      simp only [List.set, List.take, List.cons_append]
      rw [ih j (by simpa using h)]

theorem collectImages_eq (fs : List JsFile) (n : Nat) :
    collectImages fs n
      = ((fs.take n).filter (fun f => f.ftype.startsWith "image/")).map (fun f => f.url) := by
  induction fs generalizing n with
  | nil => cases n <;> simp [collectImages]
  | cons f t ih =>
    cases n with
    | zero => simp [collectImages]
    | succ m =>
      by_cases himg : f.ftype.startsWith "image/"
      · simp [collectImages, himg, ih]
      · simp [collectImages, himg, ih]

/-! ## Claim theorems -/

/-- C4: for every thread state, when send appends an optimistic pending message
whose temporary id is fresh and the request fails, the revert restores the
thread exactly. -/
theorem send_failure_reverts (T : List Message) (temp : Message)
    (h : ∀ m ∈ T, m.id ≠ temp.id) : sendFailedRound T temp = T := by
  unfold sendFailedRound sendRevert sendOptimistic
  rw [List.filter_append]
  have h1 : T.filter (fun m => !(m.id == temp.id)) = T := by
    apply List.filter_eq_self.mpr
    intro m hm
    simp [h m hm]
  have h2 : [temp].filter (fun m => !(m.id == temp.id)) = ([] : List Message) := by simp
  rw [h1, h2, List.append_nil]

/-- C4 witness: a failed send of m2 over the thread [m1] leaves [m1]. -/
theorem send_failure_reverts_witness :
    sendFailedRound [⟨"m1", "user", "hello", none⟩] ⟨"tmp_1", "user", "m2", none⟩
      = [⟨"m1", "user", "hello", none⟩] :=
  send_failure_reverts [⟨"m1", "user", "hello", none⟩] ⟨"tmp_1", "user", "m2", none⟩
    (by decide)

/-- C5: saving an edit of the message at index i with new content optimistically
yields exactly the prefix up to i with that message rewritten in place; order is
preserved and only the suffix after it is dropped. -/
theorem edit_optimistic_truncates (msgs : List Message) (targetId newText : String)
    (i : Nat) (mi : Message)
    (hfind : msgs.findIdx? (fun x => x.id == targetId) = some i)
    (hget : msgs[i]? = some mi) :
    editOptimistic msgs targetId newText
      = msgs.take i ++ [{ mi with content := newText }] := by
  unfold editOptimistic
  rw [hfind]
  dsimp only
  rw [hget]
  dsimp only
  have hlt : i < msgs.length := by
    by_contra hc
    rw [List.getElem?_eq_none (by omega)] at hget
    exact Option.noConfusion hget
  exact take_succ_set msgs i _ hlt

/-- C5 witness: editing m2 in [m1,m2,m3,m4] yields [m1, m2 rewritten]. -/
theorem edit_optimistic_truncates_witness :
    editOptimistic
      [⟨"m1", "user", "a", none⟩, ⟨"m2", "user", "b", none⟩,
       ⟨"m3", "assistant", "c", none⟩, ⟨"m4", "user", "d", none⟩] "m2" "B"
      = [⟨"m1", "user", "a", none⟩, ⟨"m2", "user", "B", none⟩] :=
  edit_optimistic_truncates
    [⟨"m1", "user", "a", none⟩, ⟨"m2", "user", "b", none⟩,
     ⟨"m3", "assistant", "c", none⟩, ⟨"m4", "user", "d", none⟩] "m2" "B" 1
    ⟨"m2", "user", "b", none⟩ (by decide) (by decide)

/-- C10: starting from a pending list of at most six entries, the image
selection handler keeps the list within six entries, appends at most
6 minus the current length files, is a no-op on an empty selection, and
appends exactly the image-typed files among the first admitted ones. -/
theorem handleImagesSelected_bounds (current : List String) (files : List JsFile)
    (hcur : current.length ≤ 6) :
    (handleImagesSelected current files).length ≤ 6
    ∧ (handleImagesSelected current files).length ≤ current.length + (6 - current.length)
    ∧ handleImagesSelected current [] = current
    ∧ handleImagesSelected current files
        = current ++ ((files.take (min files.length (6 - current.length))).filter
            (fun f => f.ftype.startsWith "image/")).map (fun f => f.url) := by
  have hchar : handleImagesSelected current files
      = current ++ ((files.take (min files.length (6 - current.length))).filter
          (fun f => f.ftype.startsWith "image/")).map (fun f => f.url) := by
    unfold handleImagesSelected
    by_cases hf : files.length = 0
    · rw [if_pos hf]
      have : files = [] := List.length_eq_zero.mp hf
      subst this
      simp
    · rw [if_neg hf, collectImages_eq]
  have hlen : (handleImagesSelected current files).length
      ≤ current.length + (6 - current.length) := by
    rw [hchar, List.length_append, List.length_map]
    have h1 : ((files.take (min files.length (6 - current.length))).filter
        (fun f => f.ftype.startsWith "image/")).length
        ≤ (files.take (min files.length (6 - current.length))).length :=
      List.length_filter_le _ _
    have h2 : (files.take (min files.length (6 - current.length))).length
        ≤ min files.length (6 - current.length) := by
      rw [List.length_take]; omega
    omega
  refine ⟨by omega, hlen, by simp [handleImagesSelected], hchar⟩

/-- C10 witness: with one pending entry, selecting one image file and one
non-image file appends only the image data URL. -/
theorem handleImagesSelected_bounds_witness :
    (handleImagesSelected ["a"] [⟨"image/png", "u1"⟩, ⟨"text/plain", "u2"⟩]).length ≤ 6
    ∧ (handleImagesSelected ["a"] [⟨"image/png", "u1"⟩, ⟨"text/plain", "u2"⟩]).length
        ≤ ("a" :: []).length + (6 - ("a" :: []).length)
    ∧ handleImagesSelected ["a"] [] = ["a"]
    ∧ handleImagesSelected ["a"] [⟨"image/png", "u1"⟩, ⟨"text/plain", "u2"⟩]
        = ["a"] ++ ((([⟨"image/png", "u1"⟩, ⟨"text/plain", "u2"⟩] : List JsFile).take
            (min ([⟨"image/png", "u1"⟩, ⟨"text/plain", "u2"⟩] : List JsFile).length
              (6 - ("a" :: []).length))).filter
            (fun f => f.ftype.startsWith "image/")).map (fun f => f.url) :=
  handleImagesSelected_bounds ["a"] [⟨"image/png", "u1"⟩, ⟨"text/plain", "u2"⟩] (by decide)

theorem string_data_inj {s t : String} (h : s.data = t.data) : s = t := by
  cases s
  cases t
  exact congrArg String.mk h

theorem append_pipe_inj (a : List Char) (b : List Char) (r1 r2 : List Char)
    (ha : '|' ∉ a) (hb : '|' ∉ b) (h : a ++ '|' :: r1 = b ++ '|' :: r2) :
    a = b ∧ r1 = r2 := by
  induction a generalizing b with
  | nil =>
    cases b with
    | nil => simp at h; exact ⟨rfl, h⟩
    | cons y u =>
      simp at h
      obtain ⟨hy, -⟩ := h
      exact absurd (hy ▸ List.mem_cons_self y u) hb
  | cons x t ih =>
    cases b with
    | nil =>
      simp at h
      obtain ⟨hx, -⟩ := h
      exact absurd (hx ▸ List.mem_cons_self x t) ha
    | cons y u =>
      simp only [List.cons_append, List.cons_eq_cons] at h
      obtain ⟨hxy, h2⟩ := h
      have ha2 : '|' ∉ t := fun hc => ha (List.mem_cons_of_mem x hc)
      have hb2 : '|' ∉ u := fun hc => hb (List.mem_cons_of_mem y hc)
      obtain ⟨he, hr⟩ := ih u ha2 hb2 h2
      exact ⟨by rw [hxy, he], hr⟩

/-- C9 counterexample: two distinct (tenant id, profile id) pairs with the same
HKDF context string, because the tenant id may itself contain the separator
`|profile:`. -/
theorem contextInfo_not_injective :
    contextInfo (some "a|profile:b") "c" = contextInfo (some "a") "b|profile:c"
    ∧ ¬ (("a|profile:b" : String) = "a" ∧ ("c" : String) = "b|profile:c") := by
  constructor
  · rfl
  · intro hc
    exact absurd hc.1 (by decide)

/-- C9 (amended): the HKDF context encoding is injective on pairs of effective
tenant id (the stored company id, or "default" when unset or empty) and profile
id, provided the effective tenant ids contain no pipe character. -/
theorem contextInfo_inj (t1 t2 : Option String) (c1 c2 : String)
    (h1 : '|' ∉ (if jsTruthy t1 then jsOr t1 else "default").data)
    (h2 : '|' ∉ (if jsTruthy t2 then jsOr t2 else "default").data)
    (heq : contextInfo t1 c1 = contextInfo t2 c2) :
    (if jsTruthy t1 then jsOr t1 else "default")
      = (if jsTruthy t2 then jsOr t2 else "default") ∧ c1 = c2 := by
  have hform : ∀ (t : Option String) (c : String), (contextInfo t c).data
      = ("company:" : String).data
        ++ ((if jsTruthy t then jsOr t else "default").data
            ++ ('|' :: (("profile:" : String).data ++ c.data))) := by
    intro t c
    unfold contextInfo
    simp [String.data_append, List.append_assoc]
  have hdata := congrArg String.data heq
  rw [hform, hform] at hdata
  have hcut := List.append_cancel_left hdata
  obtain ⟨he, hr⟩ := append_pipe_inj _ _ _ _ h1 h2 hcut
  refine ⟨string_data_inj he, string_data_inj (List.append_cancel_left hr)⟩

/-- C9 amended witness: equal inputs trivially satisfy the injectivity
conclusion under pipe-free tenant ids. -/
theorem contextInfo_inj_witness :
    (if jsTruthy (some "co") then jsOr (some "co") else "default")
      = (if jsTruthy (some "co") then jsOr (some "co") else "default")
    ∧ ("p1" : String) = "p1" :=
  contextInfo_inj (some "co") (some "co") "p1" "p1" (by decide) (by decide) rfl

/-- C3 counterexample: a legacy row carrying neither plaintext nor ciphertext,
with locally-cached content for its id: edit reconciliation substitutes the
cache, history load leaves the content empty. -/
theorem history_edit_cache_divergence :
    resolveHistoryRow1 ⟨some "co", some "AAAA"⟩ "p1" []
        ⟨"m1", "user", none, none, none, none⟩
      ≠ resolveEditRow1 ⟨some "co", some "AAAA"⟩ "p1" []
          [⟨"m1", "user", "hello", none⟩] ⟨"m1", "user", none, none, none, none⟩ := by
  decide

/-- C3 (amended): history load and edit reconciliation share the row-local
fallback: history load resolves every row exactly as edit reconciliation does
with an empty local cache; the two differ only through the cache step, which
history load lacks. -/
theorem history_load_eq_edit_reconcile_empty_cache (st : StorageState) (pid : String)
    (fresh : List Nat) (m : ServerRow) :
    resolveHistoryRow1 st pid fresh m = resolveEditRow1 st pid fresh [] m := by
  unfold resolveHistoryRow1 resolveEditRow1
  dsimp only
  congr 1
  funext t
  simp [List.find?]

/-- Concrete encrypted row used to exhibit the part_001 resolution order: the
plaintext field carries "A" while the ciphertext decrypts to "B". -/
def c2Row : ServerRow :=
  match encryptWithProfile ⟨some "co", some "AAAA"⟩ "p1" []
      [1, 2, 3, 4, 5, 6, 7, 8, 9, 10, 11, 12] "B" with
  | some (pay, _) =>
    ⟨"m1", "user", some "A", some pay.content_enc, some pay.content_nonce, none⟩
  | none => ⟨"m1", "user", some "A", none, none, none⟩

set_option maxRecDepth 8192 in
/-- C2 counterexample: in the part_001 edit reconciliation, a row whose
plaintext field is "A" but whose ciphertext decrypts to "B" is displayed as
"B": decryption takes precedence over the plaintext field, not the claimed
order. -/
theorem edit_reconcile_decrypts_first :
    resolveEditRow1 ⟨some "co", some "AAAA"⟩ "p1" [] [] c2Row
      = some ⟨"m1", "user", "B", none⟩
    ∧ c2Row.content = some "A" ∧ ("B" : String) ≠ "A" := by
  refine ⟨by decide, by decide, by decide⟩

theorem decryptWithProfile_guard_off (st : StorageState) (pid : String) (fresh : List Nat)
    (enc nonce : Option String)
    (h : ¬ (jsTruthy enc = true ∧ jsTruthy nonce = true)) :
    decryptWithProfile st pid fresh enc nonce = some none := by
  unfold decryptWithProfile
  have h2 : jsTruthy enc = false ∨ jsTruthy nonce = false := by
    cases he : jsTruthy enc <;> cases hn : jsTruthy nonce <;> simp_all
  rw [if_pos h2]

/-- C2 (amended): given the decryption result a row yields, the part_001 edit
reconciliation displays it with precedence decryption, then plaintext field,
then cached content, while the part_002 edit reconciliation displays it with
precedence plaintext field, then decryption, then cached content. -/
theorem edit_reconcile_fallback_orders (st : StorageState) (pid : String)
    (fresh : List Nat) (cache : List Message) (m : ServerRow) (d : String)
    (hd : rowDecryptedText st pid fresh m = some d) :
    resolveEditRow1 st pid fresh cache m
      = some ⟨m.id, m.role,
          specResolveDecryptFirst d (jsOr m.content) (cachedText cache m.id), m.created_at⟩
    ∧ resolveEditRow2 st pid fresh cache m
      = some ⟨m.id, m.role,
          specResolvePlaintextFirst (jsOr m.content) d (cachedText cache m.id), m.created_at⟩ := by
  unfold rowDecryptedText at hd
  by_cases hG : jsTruthy m.content_enc = true ∧ jsTruthy m.content_nonce = true
  · cases hD : decryptWithProfile st pid fresh m.content_enc m.content_nonce with
    | none => rw [hD] at hd; simp at hd
    | some dec0 =>
      rw [hD] at hd
      simp only [Option.map_some'] at hd
      constructor
      · unfold resolveEditRow1
        rw [if_pos hG, hD]
        dsimp only
        unfold specResolveDecryptFirst cachedText
        rw [hd]
        by_cases hdec : d = "" <;> by_cases hpt : jsOr m.content = "" <;>
          cases hF : cache.find? (fun p => p.id == m.id) <;> simp_all
      · unfold resolveEditRow2
        by_cases hpt : jsOr m.content = ""
        · rw [if_pos ⟨hpt, hG⟩, hD]
          dsimp only
          unfold specResolvePlaintextFirst cachedText
          rw [hd]
          by_cases hdec : d = "" <;>
            cases hF : cache.find? (fun p => p.id == m.id) <;> simp_all
        · rw [if_neg (fun hc => hpt hc.1)]
          dsimp only
          unfold specResolvePlaintextFirst cachedText
          simp [hpt]
  · have hD := decryptWithProfile_guard_off st pid fresh m.content_enc m.content_nonce hG
    rw [hD] at hd
    simp only [Option.map_some'] at hd
    have hd0 : d = "" := by simpa [jsOr] using (Option.some.inj hd).symm
    subst hd0
    constructor
    · unfold resolveEditRow1
      rw [if_neg hG]
      dsimp only
      unfold specResolveDecryptFirst cachedText
      by_cases hpt : jsOr m.content = "" <;>
        cases hF : cache.find? (fun p => p.id == m.id) <;> simp_all
    · unfold resolveEditRow2
      rw [if_neg (fun hc => hG hc.2)]
      dsimp only
      unfold specResolvePlaintextFirst cachedText
      by_cases hpt : jsOr m.content = "" <;>
        cases hF : cache.find? (fun p => p.id == m.id) <;> simp_all

/-- C2 amended witness: a plain plaintext row resolves to its plaintext field
under both orders. -/
theorem edit_reconcile_fallback_orders_witness :
    resolveEditRow1 ⟨some "co", some "AAAA"⟩ "p1" [] []
        ⟨"m1", "user", some "A", none, none, none⟩
      = some ⟨"m1", "user",
          specResolveDecryptFirst "" (jsOr (some "A")) (cachedText [] "m1"), none⟩
    ∧ resolveEditRow2 ⟨some "co", some "AAAA"⟩ "p1" [] []
        ⟨"m1", "user", some "A", none, none, none⟩
      = some ⟨"m1", "user",
          specResolvePlaintextFirst (jsOr (some "A")) "" (cachedText [] "m1"), none⟩ :=
  edit_reconcile_fallback_orders ⟨some "co", some "AAAA"⟩ "p1" [] []
    ⟨"m1", "user", some "A", none, none, none⟩ "" (by decide)

/-- C6: evaluating the part_001 edit-save handler on a non-ok response: the
message list carries only the pre-request optimistic truncation, but editingId
stays set and the in-flight flag stays true — edit mode is not exited. -/
theorem edit_failure_keeps_edit_mode :
    editSaveClick
        ⟨[⟨"m1", "user", "a", none⟩, ⟨"m2", "assistant", "b", none⟩], some "m1", "x", false⟩
        "m1" (some "t1") ⟨some "co", some "AAAA"⟩ "p1" [] ⟨false, []⟩
      = some ⟨[⟨"m1", "user", "x", none⟩], some "m1", "x", true⟩ := by
  decide

set_option maxRecDepth 8192 in
/-- C8: with no company id in storage, ensureMasterKey signals the missing key
with null, but encryptWithProfile still succeeds: the null key is coerced to
the string "null", base64-decoded to a constant 3-byte secret, and used for
derivation and encryption instead of returning the failure. -/
theorem encrypt_without_company_proceeds :
    (encryptWithProfile ⟨none, none⟩ "p1" [] [1, 2, 3, 4, 5, 6, 7, 8, 9, 10, 11, 12]
        "hi").isSome = true
    ∧ (ensureMasterKey ⟨none, none⟩ []).1 = none
    ∧ b64d "null" = some [158, 233, 101] := by
  refine ⟨by decide, by decide, by decide⟩

theorem jsOrNull_none : jsOrNull none = none := rfl

theorem jsOrNull_idem (o : Option String) : jsOrNull (jsOrNull o) = jsOrNull o := by
  cases o with
  | none => rfl
  | some s => by_cases hs : s = "" <;> simp [jsOrNull, hs]

/-- C7 (amended): importing a correctly-passphrased artifact produced by export
returns TenantMismatch and leaves the store untouched exactly when the artifact
and the current storage both carry a (non-empty) tenant id and they differ;
in every other case — matching ids, no current tenant, or no artifact tenant —
the decrypted master key is installed. -/
theorem import_export_tenant_check (mkB : List Nat) (cidArt : Option String) (pass : String)
    (salt iv : List Nat) (st : StorageState) (obj : BackupObj)
    (hmk : ∀ b ∈ mkB, b < 256) (hsalt : ∀ b ∈ salt, b < 256) (hiv : ∀ b ∈ iv, b < 256)
    (hexp : exportKey (b64e mkB) cidArt pass salt iv = some obj) :
    importKey obj pass st
      = if jsOrNull cidArt ≠ none ∧ jsOrNull st.companyId ≠ none
            ∧ jsOrNull cidArt ≠ jsOrNull st.companyId
        then (ImportOutcome.tenantMismatch, st)
        else (ImportOutcome.success (b64e mkB),
              { st with chatMasterKey := some (b64e mkB) }) := by
  unfold exportKey at hexp
  rw [b64d_b64e mkB hmk] at hexp
  simp only [Option.map_some'] at hexp
  have hobj := Option.some.inj hexp
  subst hobj
  unfold importKey
  rw [b64d_b64e salt hsalt, b64d_b64e iv hiv,
      b64d_b64e _ (aesGcmEncrypt_lt _ _ _ hmk)]
  by_cases h1 : jsOrNull cidArt = none
  · simp [h1, aesGcmDecrypt_aesGcmEncrypt, jsOrNull_idem, jsOrNull_none]
  · by_cases h2 : jsOrNull st.companyId = none
    · simp [h1, h2, aesGcmDecrypt_aesGcmEncrypt, jsOrNull_idem, jsOrNull_none]
    · by_cases h3 : jsOrNull cidArt = jsOrNull st.companyId
      · simp [h1, h2, h3, aesGcmDecrypt_aesGcmEncrypt, jsOrNull_idem]
      · simp [h1, h2, h3, aesGcmDecrypt_aesGcmEncrypt, jsOrNull_idem,
          Option.isSome_iff_ne_none, bne_iff_ne]

/-- Concrete artifact exported under tenant "A" with passphrase "pw". -/
def c7ObjA : BackupObj :=
  match exportKey (b64e [1, 2, 3]) (some "A") "pw" [9, 8] [7, 6] with
  | some obj => obj
  | none => ⟨0, none, "", "", ""⟩

/-- C7 amended witness: importing the tenant-A artifact under current tenant B
returns TenantMismatch and leaves the store untouched. -/
theorem import_export_tenant_check_witness :
    importKey c7ObjA "pw" ⟨some "B", none⟩
      = if jsOrNull (some "A") ≠ none ∧ jsOrNull (⟨some "B", none⟩ : StorageState).companyId ≠ none
            ∧ jsOrNull (some "A") ≠ jsOrNull (⟨some "B", none⟩ : StorageState).companyId
        then (ImportOutcome.tenantMismatch, (⟨some "B", none⟩ : StorageState))
        else (ImportOutcome.success (b64e [1, 2, 3]),
              { (⟨some "B", none⟩ : StorageState) with chatMasterKey := some (b64e [1, 2, 3]) }) :=
  import_export_tenant_check [1, 2, 3] (some "A") "pw" [9, 8] [7, 6] ⟨some "B", none⟩ c7ObjA
    (by decide) (by decide) (by decide) (by decide)

/-- Concrete artifact exported with no tenant id. -/
def c7ObjNone : BackupObj :=
  match exportKey (b64e [1, 2, 3]) none "pw" [9, 8] [7, 6] with
  | some obj => obj
  | none => ⟨0, none, "", "", ""⟩

set_option maxRecDepth 8192 in
/-- C7 counterexample: an artifact carrying no tenant id, imported while a
current tenant is set, installs the key — the key is not installed only on
tenant match or unset current tenant, as claimed. -/
theorem import_installs_without_backup_tenant :
    importKey c7ObjNone "pw" ⟨some "B", none⟩
      = (ImportOutcome.success (b64e [1, 2, 3]), ⟨some "B", some (b64e [1, 2, 3])⟩)
    ∧ c7ObjNone.cid = none
    ∧ (⟨some "B", none⟩ : StorageState).companyId = some "B" := by
  refine ⟨by decide, by decide, by decide⟩

theorem ensureMasterKey_stored (st : StorageState) (fresh mkB : List Nat)
    (hcid : jsTruthy st.companyId = true)
    (hkey : st.chatMasterKey = some (b64e mkB)) (hne : mkB ≠ []) :
    ensureMasterKey st fresh = (some (b64e mkB), st) := by
  unfold ensureMasterKey
  rw [if_neg (by rw [hcid]; simp)]
  rw [if_pos (by rw [hkey]; simp [jsTruthy, bne_iff_ne, b64e_ne_empty mkB hne])]
  rw [hkey]

theorem deriveProfileKey_stored (cid : Option String) (mkB : List Nat) (pid : String)
    (hmk : ∀ b ∈ mkB, b < 256) :
    deriveProfileKey cid (some (b64e mkB)) pid
      = some (AesKey.hkdf mkB (utf8Encode "mk_salt_v1")
          (utf8Encode (contextInfo cid pid))) := by
  unfold deriveProfileKey stringOfNullable
  rw [b64d_b64e mkB hmk]
  rfl

/-- C1: encrypting any plaintext with the profile key derived from the stored
master key and then decrypting the produced payload parts with the same derived
key returns the plaintext. -/
theorem encrypt_decrypt_roundtrip (st : StorageState) (pid : String)
    (mkB iv fresh fresh2 : List Nat) (p : String)
    (hcid : jsTruthy st.companyId = true)
    (hkey : st.chatMasterKey = some (b64e mkB))
    (hmkne : mkB ≠ []) (hmk : ∀ b ∈ mkB, b < 256)
    (hivne : iv ≠ []) (hiv : ∀ b ∈ iv, b < 256) :
    (encryptWithProfile st pid fresh iv p).map
        (fun r => decryptWithProfile st pid fresh2 (some r.1.content_enc)
          (some r.1.content_nonce))
      = some (some (some p)) := by
  have hE1 := ensureMasterKey_stored st fresh mkB hcid hkey hmkne
  have hE2 := ensureMasterKey_stored st fresh2 mkB hcid hkey hmkne
  have hK := deriveProfileKey_stored st.companyId mkB pid hmk
  unfold encryptWithProfile
  rw [hE1]
  dsimp only
  rw [hK]
  simp only [Option.map_some']
  unfold decryptWithProfile
  have hctlt : ∀ b ∈ aesGcmEncrypt
      (AesKey.hkdf mkB (utf8Encode "mk_salt_v1") (utf8Encode (contextInfo st.companyId pid)))
      iv (utf8Encode p), b < 256 :=
    aesGcmEncrypt_lt _ _ _ (utf8Encode_lt p)
  have hctne : aesGcmEncrypt
      (AesKey.hkdf mkB (utf8Encode "mk_salt_v1") (utf8Encode (contextInfo st.companyId pid)))
      iv (utf8Encode p) ≠ [] := aesGcmEncrypt_ne_nil _ _ _
  rw [if_neg ?hguard]
  case hguard =>
    intro hc
    rcases hc with hc | hc <;>
      simp [jsTruthy, bne_iff_ne, b64e_ne_empty _ hctne, b64e_ne_empty _ hivne] at hc
  rw [hE2]
  dsimp only
  rw [hK]
  simp only [Option.map_some']
  have hjs1 : jsOr (some (b64e iv)) = b64e iv := rfl
  have hjs2 : jsOr (some (b64e (aesGcmEncrypt
      (AesKey.hkdf mkB (utf8Encode "mk_salt_v1") (utf8Encode (contextInfo st.companyId pid)))
      iv (utf8Encode p)))) = b64e (aesGcmEncrypt
      (AesKey.hkdf mkB (utf8Encode "mk_salt_v1") (utf8Encode (contextInfo st.companyId pid)))
      iv (utf8Encode p)) := rfl
  rw [hjs1, hjs2, b64d_b64e iv hiv, b64d_b64e _ hctlt]
  simp [aesGcmDecrypt_aesGcmEncrypt, utf8Decode_utf8Encode]

/-- C1 witness: a concrete round-trip through encryptWithProfile and
decryptWithProfile under a stored master key. -/
theorem encrypt_decrypt_roundtrip_witness :
    (encryptWithProfile ⟨some "co", some (b64e [1, 2, 3])⟩ "p1" []
        [0, 1, 2, 3, 4, 5, 6, 7, 8, 9, 10, 11] "hello").map
        (fun r => decryptWithProfile ⟨some "co", some (b64e [1, 2, 3])⟩ "p1" []
          (some r.1.content_enc) (some r.1.content_nonce))
      = some (some (some "hello")) :=
  encrypt_decrypt_roundtrip ⟨some "co", some (b64e [1, 2, 3])⟩ "p1" [1, 2, 3]
    [0, 1, 2, 3, 4, 5, 6, 7, 8, 9, 10, 11] [] [] "hello" (by decide) rfl (by decide)
    (by decide) (by decide) (by decide)
